import Mathlib

/-!
Verification of the GATN (Gradient Adversarial Transformation Network)
training and evaluation utilities.

The embedding models tensors over the rationals: a batch of signals or of
per-class probabilities is a matrix, a `List` of rows, each row a `List ℚ`.
Signals of shape [B, T, C] are flattened to [B, T * C]; every quantity the
claims mention (elementwise means, squared errors, row maxima, row sums,
argmax labels) is invariant under that flattening.  Division by zero in `ℚ`
yields `0`, matching the divide-no-nan guard of the tensor library.  The
frozen classifier, the ATN and the gradient extraction are opaque
deterministic functions, passed as parameters.
-/

namespace GATN

abbrev Vec : Type := List ℚ

abbrev Mat : Type := List (List ℚ)

/-- Mean of a list of rationals (reduce_mean over a flattened tensor). -/
def meanQ (v : Vec) : ℚ := v.sum / (v.length : ℚ)

/-- Elementwise squared difference of two equally shaped matrices
(square of x - x_adversarial). -/
def sqDiff (a b : Mat) : Mat :=
  List.zipWith (List.zipWith (fun p q => (p - q) * (p - q))) a b

/-- mean_squared_error on two equally shaped matrices: the mean of the
elementwise squared differences, a single scalar. -/
def tfMse (a b : Mat) : ℚ := meanQ (sqDiff a b).flatten

/-- reduce_max over one row (the last axis of the prediction matrix). -/
def rowMax : Vec → ℚ
  | [] => 0
  | a :: rest => rest.foldl max a

/-- `reranking` from gatn_utils: per row, set the entry of the target class
to alpha times the row maximum, then divide the whole row by its sum. -/
def reranking (y : Mat) (target : ℕ) (alpha : ℚ) : Mat :=
  y.map (fun row =>
    let max_y := rowMax row
    let weighted := row.set target (alpha * max_y)
    weighted.map (fun a => a / weighted.sum))

/-- `targetted_mse` from gatn_utils: reranks the clean predictions, then
takes the mean squared error against the generated (adversarial)
predictions; the final reduce_mean of the scalar loss is the identity. -/
def targetted_mse (y_generated y_pred : Mat) (target_id : ℕ) (alpha : ℚ) : ℚ :=
  let y_pred2 := reranking y_pred target_id alpha
  let initial_loss := tfMse y_pred2 y_generated
  initial_loss

/-- The per-batch training loss of `train_gatn`, including the reshape of
the scalar loss_x to a [1,1] tensor and the subsequent reduce_sum that
appear in the source. -/
def trainBatchLoss (x x_adversarial y_pred y_pred_adversarial : Mat)
    (target : ℕ) (alpha beta : ℚ) : ℚ :=
  let squared_difference := sqDiff x x_adversarial
  let loss_x := meanQ squared_difference.flatten
  let loss_y := targetted_mse y_pred_adversarial y_pred target alpha
  let reshaped_loss_x : Mat := [[loss_x]]
  let loss_x2 := reshaped_loss_x.flatten.sum
  beta * loss_x2 + loss_y

/-- The matrix the specification describes for reranking, written
independently of the source: per row, the target entry becomes alpha times
the row maximum and the whole row is divided by its new sum, the new sum
being the old sum minus the old target entry plus the boosted value. -/
def rerankRowSpec (row : Vec) (target : ℕ) (alpha : ℚ) : Vec :=
  let m := rowMax row
  let newSum := row.sum - row.getD target 0 + alpha * m
  (row.set target (alpha * m)).map (fun a => a / newSum)

/-- C1: the per-batch training loss of `train_gatn` equals
beta times the mean of the elementwise squared perturbation plus the mean
squared error between the reranked clean predictions and the classifier
output on the adversarial batch. -/
theorem C1_train_batch_loss (x x_adversarial y_pred y_pred_adversarial : Mat)
    (target : ℕ) (alpha beta : ℚ) :
    trainBatchLoss x x_adversarial y_pred y_pred_adversarial target alpha beta =
      beta * meanQ (sqDiff x x_adversarial).flatten +
        tfMse (reranking y_pred target alpha) y_pred_adversarial := by
  simp [trainBatchLoss, targetted_mse]

lemma foldl_max_le_init (xs : List ℚ) : ∀ b : ℚ, b ≤ xs.foldl max b := by
  induction xs with
  | nil => intro b; simp
  | cons x xs ih =>
    intro b
    simpa using le_trans (le_max_left b x) (ih (max b x))

lemma mem_le_foldl_max (xs : List ℚ) : ∀ b : ℚ, ∀ a ∈ xs, a ≤ xs.foldl max b := by
  induction xs with
  | nil => simp
  | cons x xs ih =>
    intro b a ha
    rcases List.mem_cons.mp ha with h | h
    · subst h
      simpa using le_trans (le_max_right b a) (foldl_max_le_init xs (max b a))
    · simpa using ih (max b x) a h

lemma le_rowMax (v : Vec) (a : ℚ) (ha : a ∈ v) : a ≤ rowMax v := by
  cases v with
  | nil => simp at ha
  | cons x xs =>
    rcases List.mem_cons.mp ha with h | h
    · subst h; exact foldl_max_le_init xs a
    · exact mem_le_foldl_max xs x a h

lemma sum_set (v : Vec) : ∀ i : ℕ, i < v.length → ∀ c : ℚ,
    (v.set i c).sum = v.sum - v.getD i 0 + c := by
  induction v with
  | nil => intro i hi; simp at hi
  | cons x xs ih =>
    intro i hi c
    cases i with
    | zero => simp; ring
    | succ n =>
      simp only [List.set, List.sum_cons, List.getD_cons_succ]
      rw [ih n (by simpa using hi) c]
      ring

lemma sum_map_div (v : Vec) (c : ℚ) : (v.map (fun a => a / c)).sum = v.sum / c := by
  induction v with
  | nil => simp
  | cons x xs ih => simp [ih, add_div]

lemma getD_mem (v : Vec) (i : ℕ) (hi : i < v.length) : v.getD i 0 ∈ v := by
  rw [List.getD_eq_getElem v 0 hi]
  exact List.getElem_mem hi

lemma rowMax_pos (row : Vec) (hpos : ∀ a ∈ row, 0 ≤ a) (hsum : row.sum = 1) :
    0 < rowMax row := by
  by_contra h
  push_neg at h
  have hzero : ∀ a ∈ row, a = 0 := fun a ha =>
    le_antisymm (le_trans (le_rowMax row a ha) h) (hpos a ha)
  have h0 : row.sum = 0 := List.sum_eq_zero hzero
  rw [hsum] at h0
  norm_num at h0

lemma rerank_row_sum (row : Vec) (target : ℕ) (alpha : ℚ)
    (ha : 1 < alpha) (hpos : ∀ a ∈ row, 0 ≤ a) (hsum : row.sum = 1)
    (ht : target < row.length) :
    ((row.set target (alpha * rowMax row)).map
      (fun a => a / (row.set target (alpha * rowMax row)).sum)).sum = 1 := by
  have hm : 0 < rowMax row := rowMax_pos row hpos hsum
  have hget_le : row.getD target 0 ≤ rowMax row :=
    le_rowMax row _ (getD_mem row target ht)
  have hsum_set : (row.set target (alpha * rowMax row)).sum
      = row.sum - row.getD target 0 + alpha * rowMax row := sum_set row target ht _
  have hlt : row.getD target 0 < alpha * rowMax row := by nlinarith
  have hpos_sum : 0 < (row.set target (alpha * rowMax row)).sum := by
    rw [hsum_set, hsum]; linarith
  rw [sum_map_div]
  exact div_self (ne_of_gt hpos_sum)

lemma rerank_row_spec_eq (row : Vec) (target : ℕ) (alpha : ℚ)
    (ht : target < row.length) :
    (row.set target (alpha * rowMax row)).map
        (fun a => a / (row.set target (alpha * rowMax row)).sum)
      = rerankRowSpec row target alpha := by
  unfold rerankRowSpec
  rw [sum_set row target ht]

/-- C2: on a matrix of probability rows, with a valid target column and
alpha above 1, `reranking` returns exactly the matrix the spec describes
(target entry boosted to alpha times the row maximum, row divided by its
new sum), and every row of the result sums to 1. -/
theorem C2_reranking (y : Mat) (target : ℕ) (alpha : ℚ) (ha : 1 < alpha)
    (hrows : ∀ row ∈ y, (∀ a ∈ row, 0 ≤ a) ∧ row.sum = 1 ∧ target < row.length) :
    reranking y target alpha = y.map (fun row => rerankRowSpec row target alpha) ∧
      ∀ r ∈ reranking y target alpha, r.sum = 1 := by
  constructor
  · unfold reranking
    apply List.map_congr_left
    intro row hrow
    exact rerank_row_spec_eq row target alpha (hrows row hrow).2.2
  · intro r hr
    unfold reranking at hr
    rcases List.mem_map.mp hr with ⟨row, hrow, rfl⟩
    obtain ⟨h1, h2, h3⟩ := hrows row hrow
    exact rerank_row_sum row target alpha ha h1 h2 h3

/-- Witness for C2 at a concrete two-class probability matrix. -/
theorem C2_reranking_witness :
    reranking [[(1:ℚ)/2, 1/2]] 0 (3/2) =
        [[(1:ℚ)/2, 1/2]].map (fun row => rerankRowSpec row 0 (3/2)) ∧
      ∀ r ∈ reranking [[(1:ℚ)/2, 1/2]] 0 (3/2), r.sum = 1 :=
  C2_reranking [[(1:ℚ)/2, 1/2]] 0 (3/2) (by norm_num)
    (by
      intro row hrow
      simp only [List.mem_singleton] at hrow
      subst hrow
      norm_num)

/-- One checkpoint decision at the end of a train_gatn epoch: starting from
best_loss = infinity (`none`), the ATN checkpoint is written and best_loss
updated exactly when the epoch mean loss is strictly below the current
best. -/
def ckptStep (best_loss : Option ℚ) (train_loss_val : ℚ) : Option ℚ × Bool :=
  match best_loss with
  | none => (some train_loss_val, true)
  | some b =>
    if b > train_loss_val then (some train_loss_val, true) else (some b, false)

/-- The checkpoint decisions over the epochs of train_gatn: the final
best_loss together with, per epoch, whether the ATN checkpoint was written
at the end of that epoch. -/
def ckptRun : Option ℚ → List ℚ → Option ℚ × List Bool
  | best, [] => (best, [])
  | best, l :: ls =>
    let s := ckptStep best l
    let r := ckptRun s.1 ls
    (r.1, s.2 :: r.2)

/-- Running minimum of losses, with infinity represented as `none`. -/
def omin (best : Option ℚ) (l : ℚ) : Option ℚ :=
  some (match best with | none => l | some b => min b l)

/-- Best (smallest) loss seen over a list of epoch losses; `none` when no
epoch has finished yet. -/
def bestSeen (ls : List ℚ) : Option ℚ := ls.foldl omin none

/-- Whether a loss is strictly below the best seen so far. -/
def belowBest (l : ℚ) : Option ℚ → Bool
  | none => true
  | some b => decide (l < b)

/-- Order on best-loss values, `none` being infinity. -/
def optLe : Option ℚ → Option ℚ → Prop
  | _, none => True
  | none, some _ => False
  | some a, some b => a ≤ b

lemma ckptStep_fst (b : Option ℚ) (l : ℚ) : (ckptStep b l).1 = omin b l := by
  cases b with
  | none => rfl
  | some x =>
    by_cases h : x > l
    · simp [ckptStep, omin, h, min_eq_right (le_of_lt h)]
    · simp [ckptStep, omin, h, min_eq_left (le_of_not_lt h)]

lemma ckptStep_snd (b : Option ℚ) (l : ℚ) : (ckptStep b l).2 = belowBest l b := by
  cases b with
  | none => rfl
  | some x =>
    by_cases h : x > l
    · simp [ckptStep, belowBest, h]
    · simp [ckptStep, belowBest, h]

lemma ckptRun_fst (ls : List ℚ) : ∀ b : Option ℚ, (ckptRun b ls).1 = ls.foldl omin b := by
  induction ls with
  | nil => intro b; rfl
  | cons l ls ih =>
    intro b
    show (ckptRun (ckptStep b l).1 ls).1 = _
    rw [ih, ckptStep_fst, List.foldl_cons]

lemma ckptRun_flag (ls : List ℚ) : ∀ (b : Option ℚ) (i : ℕ), i < ls.length →
    (ckptRun b ls).2.getD i false
      = belowBest (ls.getD i 0) ((ls.take i).foldl omin b) := by
  induction ls with
  | nil => intro b i hi; simp at hi
  | cons l ls ih =>
    intro b i hi
    cases i with
    | zero =>
      show (ckptStep b l).2 = _
      exact ckptStep_snd b l
    | succ n =>
      show (ckptRun (ckptStep b l).1 ls).2.getD n false = _
      rw [ih (ckptStep b l).1 n (by simpa using hi), ckptStep_fst]
      simp

lemma optLe_omin (b : Option ℚ) (l : ℚ) : optLe (omin b l) b := by
  cases b with
  | none => trivial
  | some x => simp only [omin, optLe]; exact min_le_left x l

/-- C3: in train_gatn, starting from best_loss = infinity, the ATN
checkpoint is written at the end of an epoch exactly when that epoch's
mean training loss is strictly below the best loss over all earlier
epochs; the best loss is non-increasing across epochs; and the scenario
with first-epoch loss 0.5 and second-epoch loss 0.6 saves only in the
first epoch and ends with best loss 0.5. -/
theorem C3_checkpoint_protocol :
    (∀ (losses : List ℚ) (i : ℕ), i < losses.length →
        (ckptRun none losses).2.getD i false
          = belowBest (losses.getD i 0) (bestSeen (losses.take i))) ∧
      (∀ (losses : List ℚ) (l : ℚ),
        optLe (ckptRun none (losses ++ [l])).1 (ckptRun none losses).1) ∧
      ckptRun none [1/2, 3/5] = (some ((1:ℚ)/2), [true, false]) := by
  refine ⟨?_, ?_, ?_⟩
  · intro losses i hi
    exact ckptRun_flag losses none i hi
  · intro losses l
    rw [ckptRun_fst, ckptRun_fst, List.foldl_append]
    simpa using optLe_omin (losses.foldl omin none) l
  · norm_num [ckptRun, ckptStep]

/-- Witness for C3: the second epoch of the 0.5 / 0.6 scenario does not
save because 0.6 is not below the best seen (0.5). -/
theorem C3_checkpoint_protocol_witness :
    (ckptRun none [(1:ℚ)/2, 3/5]).2.getD 1 false
      = belowBest ((3:ℚ)/5) (bestSeen ([(1:ℚ)/2, 3/5].take 1)) :=
  C3_checkpoint_protocol.1 [(1:ℚ)/2, 3/5] 1 (by norm_num)

/-- Modelled from the spec: `checked_argmax` of the external generic_utils
collaborator, missing from the sources — the index of the first maximum
entry of a row (argmax over the last axis). -/
def argmaxIdx (v : Vec) : ℕ :=
  (v.foldl (fun (st : ℕ × ℕ × ℚ) a =>
    if st.2.2 < a then (st.2.1, st.2.1 + 1, a) else (st.1, st.2.1 + 1, st.2.2))
    (0, 0, v.headD 0)).1

/-- Modelled from the spec: `target_accuracy` of the external generic_utils
collaborator, missing from the sources — on the argmax labels of the two
prediction matrices it returns the agreement rate with the first argument
(accuracy) and the fraction of second-argument predictions equal to the
target class (target rate). -/
def target_accuracy (y_true y_pred : Mat) (target : ℕ) : ℚ × ℚ :=
  let yl := y_true.map argmaxIdx
  let pl := y_pred.map argmaxIdx
  let n : ℚ := (yl.length : ℚ)
  ((List.zipWith (fun a b => if a = b then (1:ℚ) else 0) yl pl).sum / n,
   (pl.map (fun p => if p = target then (1:ℚ) else 0)).sum / n)

/-- Positions of the true entries of a boolean mask (argwhere on a
one-dimensional mask), in increasing order. -/
def argwhereTrue (mask : List Bool) : List ℕ :=
  (List.range mask.length).filter (fun i => mask.getD i false)

/-- The adversary indices contributed by one evaluation batch, from the
argmax labels of the ground truth, the clean predictions and the
adversarial predictions: positions where the clean prediction equals the
ground truth and differs from the adversarial prediction, offset by
batch_id * batchsize. -/
def adversaryIdsBatch (y_labels y_pred_labels y_adv_labels : List ℕ)
    (batch_id batchsize : ℕ) : List ℕ :=
  let pred_eq_ground := List.zipWith (fun a b => decide (a = b)) y_labels y_pred_labels
  let pred_neq_adv_labels :=
    List.zipWith (fun a b => decide (a ≠ b)) y_pred_labels y_adv_labels
  let found_adversary := List.zipWith and pred_eq_ground pred_neq_adv_labels
  (argwhereTrue found_adversary).map (fun i => batch_id * batchsize + i)

lemma getD_zipWith {α β γ : Type} (f : α → β → γ) (da : α) (db : β) (dc : γ) :
    ∀ (as : List α) (bs : List β) (i : ℕ), i < as.length → i < bs.length →
      (List.zipWith f as bs).getD i dc = f (as.getD i da) (bs.getD i db)
  | [], _, i => by intro h _; exact absurd h (by simp)
  | _ :: _, [], i => by intro _ h; exact absurd h (by simp)
  | a :: as, b :: bs, 0 => by intro _ _; rfl
  | a :: as, b :: bs, i + 1 => by
    intro h1 h2
    simpa using getD_zipWith f da db dc as bs i (by simpa using h1) (by simpa using h2)

lemma mem_argwhereTrue (mask : List Bool) (i : ℕ) :
    i ∈ argwhereTrue mask ↔ i < mask.length ∧ mask.getD i false = true := by
  simp [argwhereTrue, List.mem_filter, List.mem_range]

lemma found_length (yl pl al : List ℕ)
    (h1 : yl.length = pl.length) (h2 : pl.length = al.length) :
    (List.zipWith and (List.zipWith (fun a b => decide (a = b)) yl pl)
        (List.zipWith (fun a b => decide (a ≠ b)) pl al)).length = yl.length := by
  simp only [List.length_zipWith]
  omega

lemma found_getD (yl pl al : List ℕ) (i : ℕ)
    (h1 : yl.length = pl.length) (h2 : pl.length = al.length) (hi : i < yl.length) :
    (List.zipWith and (List.zipWith (fun a b => decide (a = b)) yl pl)
        (List.zipWith (fun a b => decide (a ≠ b)) pl al)).getD i false
      = (decide (yl.getD i 0 = pl.getD i 0) && decide (pl.getD i 0 ≠ al.getD i 0)) := by
  rw [getD_zipWith and false false false _ _ i
        (by simp only [List.length_zipWith]; omega)
        (by simp only [List.length_zipWith]; omega),
      getD_zipWith (fun a b => decide (a = b)) 0 0 false yl pl i hi (by omega),
      getD_zipWith (fun a b => decide (a ≠ b)) 0 0 false pl al i (by omega) (by omega)]

lemma mem_adversaryIdsBatch (yl pl al : List ℕ) (b bs j : ℕ)
    (h1 : yl.length = pl.length) (h2 : pl.length = al.length) :
    j ∈ adversaryIdsBatch yl pl al b bs ↔
      ∃ i, i < yl.length ∧ yl.getD i 0 = pl.getD i 0 ∧
        pl.getD i 0 ≠ al.getD i 0 ∧ j = b * bs + i := by
  unfold adversaryIdsBatch
  rw [List.mem_map]
  constructor
  · rintro ⟨i, hi, rfl⟩
    rw [mem_argwhereTrue, found_length yl pl al h1 h2] at hi
    obtain ⟨hlen, hval⟩ := hi
    rw [found_getD yl pl al i h1 h2 hlen] at hval
    simp only [Bool.and_eq_true, decide_eq_true_eq] at hval
    exact ⟨i, hlen, hval.1, hval.2, rfl⟩
  · rintro ⟨i, hlen, heq, hne, rfl⟩
    refine ⟨i, ?_, rfl⟩
    rw [mem_argwhereTrue, found_length yl pl al h1 h2, found_getD yl pl al i h1 h2 hlen]
    refine ⟨hlen, ?_⟩
    simp only [Bool.and_eq_true, decide_eq_true_eq]
    exact ⟨heq, hne⟩

/-- A Mean metric accumulator: running total and update count. -/
structure MeanAcc where
  total : ℚ
  count : ℕ
deriving DecidableEq

/-- Update the running mean with one scalar value. -/
def MeanAcc.update (m : MeanAcc) (v : ℚ) : MeanAcc := ⟨m.total + v, m.count + 1⟩

/-- Read the running mean; an accumulator never updated reads 0. -/
def MeanAcc.result (m : MeanAcc) : ℚ := m.total / (m.count : ℚ)

/-- State threaded through an evaluation pass: the four Mean accumulators,
the current batch id and the accumulated adversary indices. -/
structure PassState where
  mseAcc : MeanAcc
  accReal : MeanAcc
  accOpt : MeanAcc
  rateAcc : MeanAcc
  batchId : ℕ
  advIds : List ℕ
deriving DecidableEq

/-- The fresh state an evaluation pass starts from. -/
def initPassState : PassState := ⟨⟨0, 0⟩, ⟨0, 0⟩, ⟨0, 0⟩, ⟨0, 0⟩, 0, []⟩

/-- The four scalar metrics of one evaluation batch of test_scores_gatn and
train_scores_gatn: reconstruction mse, realistic (whitebox) accuracy,
optimistic (blackbox) accuracy and target rate, computed from the clean and
adversarial classifier outputs. -/
def batchEval (clf : Mat → Mat) (atn : Mat → Mat → Mat) (grad : Mat → Mat)
    (target : ℕ) (xy : Mat × Mat) : ℚ × ℚ × ℚ × ℚ :=
  let x := xy.1
  let y := xy.2
  let x_test_adversarial := atn x (grad x)
  let y_test_pred := clf x
  let y_pred_adversarial := clf x_test_adversarial
  let acc_white := target_accuracy y y_pred_adversarial target
  let acc_black := target_accuracy y_test_pred y_pred_adversarial target
  let x_mse := tfMse x x_test_adversarial
  (x_mse, acc_white.1, acc_black.1, acc_white.2)

/-- The adversary indices of one evaluation batch, computed from the batch
and the opaque classifier, ATN and gradient-extraction functions. -/
def batchIds (clf : Mat → Mat) (atn : Mat → Mat → Mat) (grad : Mat → Mat)
    (xy : Mat × Mat) (batch_id batchsize : ℕ) : List ℕ :=
  let x := xy.1
  let y := xy.2
  let x_test_adversarial := atn x (grad x)
  let y_labels := y.map argmaxIdx
  let y_pred_labels := (clf x).map argmaxIdx
  let y_adv_labels := (clf x_test_adversarial).map argmaxIdx
  adversaryIdsBatch y_labels y_pred_labels y_adv_labels batch_id batchsize

/-- One batch of an evaluation pass: update the four Mean accumulators,
extend the adversary index list, advance the batch id. -/
def passStep (clf : Mat → Mat) (atn : Mat → Mat → Mat) (grad : Mat → Mat)
    (target batchsize : ℕ) (s : PassState) (xy : Mat × Mat) : PassState :=
  let m := batchEval clf atn grad target xy
  { mseAcc := s.mseAcc.update m.1
    accReal := s.accReal.update m.2.1
    accOpt := s.accOpt.update m.2.2.1
    rateAcc := s.rateAcc.update m.2.2.2
    batchId := s.batchId + 1
    advIds := s.advIds ++ batchIds clf atn grad xy s.batchId batchsize }

/-- A full evaluation pass over the batches of a split, from the fresh
state. -/
def runPass (clf : Mat → Mat) (atn : Mat → Mat → Mat) (grad : Mat → Mat)
    (target batchsize : ℕ) (batches : List (Mat × Mat)) : PassState :=
  batches.foldl (passStep clf atn grad target batchsize) initPassState

/-- The tuple test_scores_gatn and train_scores_gatn return: the four
metric means and the adversary index list. -/
def testScoresResult (clf : Mat → Mat) (atn : Mat → Mat → Mat) (grad : Mat → Mat)
    (target batchsize : ℕ) (batches : List (Mat × Mat)) :
    ℚ × ℚ × ℚ × ℚ × List ℕ :=
  let s := runPass clf atn grad target batchsize batches
  (s.mseAcc.result, s.accReal.result, s.accOpt.result, s.rateAcc.result, s.advIds)

/-- C4: a sample joins the adversary index list exactly when its clean
prediction equals the ground-truth label and its adversarial prediction
differs from the clean prediction, recorded as batch_id * batchsize plus
the within-batch offset; and in the four-sample scenario (ground truth
[0,1,0,1], clean predictions correct for samples 0 and 2 only, adversarial
predictions hitting target class 1 for samples 0,1,2 and unchanged for
sample 3) the pass returns adversary indices [0, 2] and target rate 3/4. -/
theorem C4_adversary_indices :
    (∀ (yl pl al : List ℕ) (b bs j : ℕ),
        yl.length = pl.length → pl.length = al.length →
        (j ∈ adversaryIdsBatch yl pl al b bs ↔
          ∃ i, i < yl.length ∧ yl.getD i 0 = pl.getD i 0 ∧
            pl.getD i 0 ≠ al.getD i 0 ∧ j = b * bs + i)) ∧
      (testScoresResult
          (fun m => if m.length = 4
            then [[(9:ℚ)/10, 1/10], [7/10, 3/10], [6/10, 4/10], [8/10, 2/10]]
            else [[(1:ℚ)/10, 9/10], [2/10, 8/10], [3/10, 7/10], [9/10, 1/10]])
          (fun _ _ => [[0]]) (fun _ => [[0]]) 1 4
          [([[(1:ℚ)], [2], [3], [4]],
            [[(1:ℚ), 0], [0, 1], [1, 0], [0, 1]])]).2.2.2
        = (3/4, [0, 2]) := by
  constructor
  · intro yl pl al b bs j h1 h2
    exact mem_adversaryIdsBatch yl pl al b bs j h1 h2
  · norm_num [testScoresResult, runPass, passStep, initPassState, batchEval,
      batchIds, target_accuracy, argmaxIdx, adversaryIdsBatch, argwhereTrue,
      MeanAcc.update, MeanAcc.result, List.range, List.range.loop]

/-- Witness for C4 at the labels of the four-sample scenario. -/
theorem C4_adversary_indices_witness :
    0 ∈ adversaryIdsBatch [0, 1, 0, 1] [0, 0, 0, 0] [1, 1, 1, 0] 0 4 ↔
      ∃ i, i < [0, 1, 0, 1].length ∧
        [0, 1, 0, 1].getD i 0 = [0, 0, 0, 0].getD i 0 ∧
        [0, 0, 0, 0].getD i 0 ≠ [1, 1, 1, 0].getD i 0 ∧ 0 = 0 * 4 + i :=
  C4_adversary_indices.1 [0, 1, 0, 1] [0, 0, 0, 0] [1, 1, 1, 0] 0 4 0 rfl rfl

/-- C6: an evaluation pass is a pure function of the frozen model
behaviours and the fixed batch sequence: two runs whose classifier, ATN
and gradient functions agree pointwise (same restored checkpoints, frozen
parameters) over the same unshuffled batch list return identical metric
scalars and identical adversary index lists. -/
theorem C6_evaluation_deterministic (clf₁ clf₂ : Mat → Mat)
    (atn₁ atn₂ : Mat → Mat → Mat) (grad₁ grad₂ : Mat → Mat)
    (target batchsize : ℕ) (batches : List (Mat × Mat))
    (hclf : ∀ m, clf₁ m = clf₂ m) (hatn : ∀ m g, atn₁ m g = atn₂ m g)
    (hgrad : ∀ m, grad₁ m = grad₂ m) :
    testScoresResult clf₁ atn₁ grad₁ target batchsize batches
      = testScoresResult clf₂ atn₂ grad₂ target batchsize batches := by
  have h1 : clf₁ = clf₂ := funext hclf
  have h2 : atn₁ = atn₂ := funext fun m => funext (hatn m)
  have h3 : grad₁ = grad₂ := funext hgrad
  rw [h1, h2, h3]

/-- Witness for C6: two syntactically different but pointwise equal model
functions give the same evaluation result on a concrete batch. -/
theorem C6_evaluation_deterministic_witness :
    testScoresResult (fun m => m) (fun m _ => m) (fun m => m) 0 1
        [([[(1:ℚ)]], [[(1:ℚ)]])]
      = testScoresResult (fun m => m ++ []) (fun m _ => m ++ []) (fun m => m ++ []) 0 1
        [([[(1:ℚ)]], [[(1:ℚ)]])] :=
  C6_evaluation_deterministic (fun m => m) (fun m => m ++ []) (fun m _ => m)
    (fun m _ => m ++ []) (fun m => m) (fun m => m ++ []) 0 1
    [([[(1:ℚ)]], [[(1:ℚ)]])]
    (fun m => (List.append_nil m).symm) (fun m _ => (List.append_nil m).symm)
    (fun m => (List.append_nil m).symm)

lemma runPass_accs (clf : Mat → Mat) (atn : Mat → Mat → Mat) (grad : Mat → Mat)
    (target batchsize : ℕ) (batches : List (Mat × Mat)) :
    ∀ s : PassState,
      (batches.foldl (passStep clf atn grad target batchsize) s).mseAcc
          = ⟨s.mseAcc.total
                + (batches.map (fun p => (batchEval clf atn grad target p).1)).sum,
              s.mseAcc.count + batches.length⟩ ∧
        (batches.foldl (passStep clf atn grad target batchsize) s).accReal
          = ⟨s.accReal.total
                + (batches.map (fun p => (batchEval clf atn grad target p).2.1)).sum,
              s.accReal.count + batches.length⟩ ∧
        (batches.foldl (passStep clf atn grad target batchsize) s).accOpt
          = ⟨s.accOpt.total
                + (batches.map (fun p => (batchEval clf atn grad target p).2.2.1)).sum,
              s.accOpt.count + batches.length⟩ ∧
        (batches.foldl (passStep clf atn grad target batchsize) s).rateAcc
          = ⟨s.rateAcc.total
                + (batches.map (fun p => (batchEval clf atn grad target p).2.2.2)).sum,
              s.rateAcc.count + batches.length⟩ := by
  induction batches with
  | nil => intro s; simp
  | cons xy rest ih =>
    intro s
    simp only [List.foldl_cons, List.map_cons, List.sum_cons, List.length_cons,
      passStep, MeanAcc.update]
    obtain ⟨e1, e2, e3, e4⟩ := ih (passStep clf atn grad target batchsize s xy)
    simp only [passStep, MeanAcc.update] at e1 e2 e3 e4
    refine ⟨?_, ?_, ?_, ?_⟩
    · rw [e1, MeanAcc.mk.injEq]
      exact ⟨by ring, by omega⟩
    · rw [e2, MeanAcc.mk.injEq]
      exact ⟨by ring, by omega⟩
    · rw [e3, MeanAcc.mk.injEq]
      exact ⟨by ring, by omega⟩
    · rw [e4, MeanAcc.mk.injEq]
      exact ⟨by ring, by omega⟩

/-- C7: each of the four metrics returned by an evaluation pass equals the
unweighted arithmetic mean of the per-batch metric values over all batches
of the split, whatever the batch sizes (in particular when the final batch
is smaller). -/
theorem C7_mean_of_batch_means (clf : Mat → Mat) (atn : Mat → Mat → Mat)
    (grad : Mat → Mat) (target batchsize : ℕ) (batches : List (Mat × Mat)) :
    (testScoresResult clf atn grad target batchsize batches).1
        = meanQ (batches.map (fun p => (batchEval clf atn grad target p).1)) ∧
      (testScoresResult clf atn grad target batchsize batches).2.1
        = meanQ (batches.map (fun p => (batchEval clf atn grad target p).2.1)) ∧
      (testScoresResult clf atn grad target batchsize batches).2.2.1
        = meanQ (batches.map (fun p => (batchEval clf atn grad target p).2.2.1)) ∧
      (testScoresResult clf atn grad target batchsize batches).2.2.2.1
        = meanQ (batches.map (fun p => (batchEval clf atn grad target p).2.2.2)) := by
  obtain ⟨e1, e2, e3, e4⟩ :=
    runPass_accs clf atn grad target batchsize batches initPassState
  refine ⟨?_, ?_, ?_, ?_⟩
  · simp only [testScoresResult, runPass, e1]
    simp [MeanAcc.result, meanQ, initPassState]
  · simp only [testScoresResult, runPass, e2]
    simp [MeanAcc.result, meanQ, initPassState]
  · simp only [testScoresResult, runPass, e3]
    simp [MeanAcc.result, meanQ, initPassState]
  · simp only [testScoresResult, runPass, e4]
    simp [MeanAcc.result, meanQ, initPassState]

/-- Modelled from the spec: the batching of prepare_dataset, an external
generic_utils collaborator missing from the sources — a split is consumed
as consecutive batches of batch_size samples, with a smaller final batch
when the sample count is not an exact multiple.  Fuel recursion on the
list length. -/
def chunkAux {α : Type} : ℕ → ℕ → List α → List (List α)
  | 0, _, _ => []
  | _, _, [] => []
  | fuel + 1, bs, a :: rest =>
    ((a :: rest).take bs) :: chunkAux fuel bs ((a :: rest).drop bs)

/-- The batches of a split of samples, batch size bs. -/
def chunk {α : Type} (bs : ℕ) (l : List α) : List (List α) := chunkAux l.length bs l

lemma chunkAux_nil {α : Type} (fuel bs : ℕ) : chunkAux fuel bs ([] : List α) = [] := by
  cases fuel <;> rfl

lemma chunkAux_flatten {α : Type} (bs : ℕ) (hbs : 0 < bs) :
    ∀ (fuel : ℕ) (l : List α), l.length ≤ fuel → (chunkAux fuel bs l).flatten = l := by
  intro fuel
  induction fuel with
  | zero =>
    intro l hl
    have h0 : l = [] := List.length_eq_zero.mp (Nat.le_zero.mp hl)
    subst h0; rfl
  | succ n ih =>
    intro l hl
    cases l with
    | nil => rfl
    | cons a rest =>
      simp only [chunkAux, List.flatten_cons]
      rw [ih ((a :: rest).drop bs)
        (by simp only [List.length_drop, List.length_cons] at hl ⊢; omega)]
      exact List.take_append_drop bs (a :: rest)

lemma chunkAux_length {α : Type} (bs : ℕ) (hbs : 0 < bs) :
    ∀ (fuel : ℕ) (l : List α), l.length ≤ fuel →
      (chunkAux fuel bs l).length
        = l.length / bs + (if l.length % bs ≠ 0 then 1 else 0) := by
  intro fuel
  induction fuel with
  | zero =>
    intro l hl
    have h0 : l = [] := List.length_eq_zero.mp (Nat.le_zero.mp hl)
    subst h0; simp [chunkAux_nil]
  | succ n ih =>
    intro l hl
    cases l with
    | nil => simp [chunkAux_nil]
    | cons a rest =>
      simp only [chunkAux, List.length_cons]
      rw [ih ((a :: rest).drop bs)
        (by simp only [List.length_drop, List.length_cons] at hl ⊢; omega)]
      simp only [List.length_drop, List.length_cons]
      rcases le_or_lt bs (rest.length + 1) with hle | hlt
      · simp only [Nat.div_eq_sub_div hbs hle, Nat.mod_eq_sub_mod hle]
        split <;> omega
      · have hd : rest.length + 1 - bs = 0 := by omega
        simp only [hd, Nat.div_eq_of_lt hlt, Nat.mod_eq_of_lt hlt,
          Nat.zero_div, Nat.zero_mod]
        simp

lemma chunkAux_getD_length_bound {α : Type} (bs : ℕ) (hbs : 0 < bs) :
    ∀ (fuel : ℕ) (l : List α) (b : ℕ), l.length ≤ fuel →
      b < (chunkAux fuel bs l).length →
      b * bs + ((chunkAux fuel bs l).getD b []).length ≤ l.length := by
  intro fuel
  induction fuel with
  | zero =>
    intro l b _ hb
    simp [chunkAux] at hb
  | succ n ih =>
    intro l b hl hb
    cases l with
    | nil => rw [chunkAux_nil] at hb; simp at hb
    | cons a rest =>
      cases b with
      | zero =>
        simp only [chunkAux, List.getD_cons_zero, List.length_take]
        omega
      | succ m =>
        simp only [chunkAux, List.getD_cons_succ, List.length_cons] at hb ⊢
        have hne : chunkAux n bs ((a :: rest).drop bs) ≠ [] := by
          intro hemp
          rw [hemp] at hb
          simp at hb
        have hdrop_ne : (a :: rest).drop bs ≠ [] := by
          intro hemp
          rw [hemp, chunkAux_nil] at hne
          exact hne rfl
        have hbslt : bs < rest.length + 1 := by
          by_contra hge
          push_neg at hge
          exact hdrop_ne (List.drop_eq_nil_of_le (by simpa using hge))
        have := ih ((a :: rest).drop bs) m
          (by simp only [List.length_drop, List.length_cons] at hl ⊢; omega)
          (by simpa using hb)
        simp only [List.length_drop, List.length_cons] at this
        have hmul : (m + 1) * bs = bs + m * bs := by ring
        omega

lemma batchIds_shape (clf : Mat → Mat) (atn : Mat → Mat → Mat) (grad : Mat → Mat)
    (xy : Mat × Mat) (batch_id batchsize : ℕ) (j : ℕ)
    (hj : j ∈ batchIds clf atn grad xy batch_id batchsize) :
    ∃ i, i < xy.2.length ∧ j = batch_id * batchsize + i := by
  unfold batchIds adversaryIdsBatch at hj
  rw [List.mem_map] at hj
  obtain ⟨i, hi, rfl⟩ := hj
  rw [mem_argwhereTrue] at hi
  refine ⟨i, ?_, rfl⟩
  have hlen := hi.1
  simp only [List.length_zipWith, List.length_map] at hlen
  omega

lemma runPass_advIds_shape (clf : Mat → Mat) (atn : Mat → Mat → Mat)
    (grad : Mat → Mat) (target batchsize : ℕ) :
    ∀ (batches : List (Mat × Mat)) (s : PassState) (j : ℕ),
      j ∈ (batches.foldl (passStep clf atn grad target batchsize) s).advIds →
      j ∈ s.advIds ∨ ∃ b i, b < batches.length ∧
        i < ((batches.getD b ([], [])).2).length ∧
        j = (s.batchId + b) * batchsize + i := by
  intro batches
  induction batches with
  | nil => intro s j hj; exact Or.inl hj
  | cons xy rest ih =>
    intro s j hj
    rw [List.foldl_cons] at hj
    rcases ih (passStep clf atn grad target batchsize s xy) j hj with
      h | ⟨b, i, hb, hi, hj2⟩
    · simp only [passStep] at h
      rw [List.mem_append] at h
      rcases h with h | h
      · exact Or.inl h
      · obtain ⟨i, hi, hj2⟩ := batchIds_shape clf atn grad xy s.batchId batchsize j h
        exact Or.inr ⟨0, i, by simp, by simpa using hi, by simpa using hj2⟩
    · refine Or.inr ⟨b + 1, i, by simpa using hb, by simpa using hi, ?_⟩
      have hstep : (passStep clf atn grad target batchsize s xy).batchId
          = s.batchId + 1 := rfl
      rw [hstep] at hj2
      rw [hj2]
      ring

/-- C5: with a batch size not dividing the sample count N, the batching
still processes every sample exactly once — the batches concatenate back
to the split, and there are N / batchsize + 1 of them, the last one
smaller — and every adversary index reported by an evaluation pass over
those batches is at most N - 1 (indices are naturals, hence
non-negative). -/
theorem C5_ragged_split (clf : Mat → Mat) (atn : Mat → Mat → Mat)
    (grad : Mat → Mat) (target batchsize : ℕ) (X Y : Mat)
    (hbs : 0 < batchsize) (_hlen : X.length = Y.length)
    (hmod : Y.length % batchsize ≠ 0) :
    (chunk batchsize Y).flatten = Y ∧
      (chunk batchsize Y).length = Y.length / batchsize + 1 ∧
      ∀ j ∈ (testScoresResult clf atn grad target batchsize
          ((chunk batchsize X).zip (chunk batchsize Y))).2.2.2.2,
        j ≤ Y.length - 1 := by
  refine ⟨chunkAux_flatten batchsize hbs Y.length Y le_rfl, ?_, ?_⟩
  · rw [chunk, chunkAux_length batchsize hbs Y.length Y le_rfl, if_pos hmod]
  · intro j hj
    have hj2 : j ∈ (runPass clf atn grad target batchsize
        ((chunk batchsize X).zip (chunk batchsize Y))).advIds := hj
    rcases runPass_advIds_shape clf atn grad target batchsize _ initPassState j hj2
      with h | ⟨b, i, hb, hi, hjeq⟩
    · simp [initPassState] at h
    · have hbx : b < (chunk batchsize X).length := by
        rw [List.length_zip] at hb; omega
      have hby : b < (chunk batchsize Y).length := by
        rw [List.length_zip] at hb; omega
      have hgetD : ((((chunk batchsize X).zip (chunk batchsize Y)).getD b ([], [])).2)
          = (chunk batchsize Y).getD b [] := by
        rw [List.zip, getD_zipWith Prod.mk [] [] ([], []) _ _ b hbx hby]
      rw [hgetD] at hi
      have hbound : b * batchsize + ((chunk batchsize Y).getD b []).length
          ≤ Y.length := by
        simp only [chunk] at hby ⊢
        exact chunkAux_getD_length_bound batchsize hbs Y.length Y b le_rfl hby
      have hjeq2 : j = b * batchsize + i := by
        rw [hjeq]
        simp [initPassState]
      have hfin : j < Y.length := by
        rw [hjeq2]
        exact lt_of_lt_of_le (Nat.add_lt_add_left hi _) hbound
      omega

/-- Witness for C5 on a three-sample split with batch size two. -/
theorem C5_ragged_split_witness :
    (chunk 2 [[(1:ℚ), 0], [0, 1], [1, 0]]).flatten
        = [[(1:ℚ), 0], [0, 1], [1, 0]] ∧
      (chunk 2 [[(1:ℚ), 0], [0, 1], [1, 0]]).length
        = [[(1:ℚ), 0], [0, 1], [1, 0]].length / 2 + 1 :=
  ⟨(C5_ragged_split (fun m => m) (fun m _ => m) (fun m => m) 0 2
      [[(1:ℚ)], [2], [3]] [[(1:ℚ), 0], [0, 1], [1, 0]]
      (by norm_num) rfl (by simp)).1,
   (C5_ragged_split (fun m => m) (fun m _ => m) (fun m => m) 0 2
      [[(1:ℚ)], [2], [3]] [[(1:ℚ), 0], [0, 1], [1, 0]]
      (by norm_num) rfl (by simp)).2.1⟩

/-- Select the entries of a list at the true positions of a boolean mask
(boolean-mask array indexing). -/
def boolMaskSelect {α : Type} (xs : List α) (mask : List Bool) : List α :=
  ((xs.zip mask).filter (fun p => p.2)).map (fun p => p.1)

/-- The training-data cleaning mask of train_gatn: keep a sample exactly
when the argmax of its one-hot label differs from the target class. -/
def cleanMask (y : Mat) (target_class_id : ℕ) : List Bool :=
  y.map (fun row => decide (argmaxIdx row ≠ target_class_id))

/-- The training-data cleaning step of train_gatn: filter the signals and
the labels by the same mask computed from the labels. -/
def cleanTraining {σ : Type} (X : List σ) (y : Mat) (target_class_id : ℕ) :
    List σ × Mat :=
  (boolMaskSelect X (cleanMask y target_class_id),
   boolMaskSelect y (cleanMask y target_class_id))

lemma boolMaskSelect_self_map {α : Type} (f : α → Bool) :
    ∀ xs : List α, boolMaskSelect xs (xs.map f) = xs.filter f := by
  intro xs
  induction xs with
  | nil => rfl
  | cons a rest ih =>
    simp only [boolMaskSelect, List.map_cons, List.zip_cons_cons, List.filter_cons]
    cases h : f a
    · simpa [boolMaskSelect, h] using ih
    · simpa [boolMaskSelect, h] using ih

/-- C8: after the training-data cleaning step the label split is exactly
the rows whose argmax label differs from the target class: no sample of
the target class survives, and the filter removes nothing else. -/
theorem C8_clean_filter (σ : Type) (X : List σ) (y : Mat) (target_class_id : ℕ) :
    (cleanTraining X y target_class_id).2
        = y.filter (fun row => decide (argmaxIdx row ≠ target_class_id)) ∧
      (∀ row ∈ (cleanTraining X y target_class_id).2,
        argmaxIdx row ≠ target_class_id) ∧
      (cleanTraining X y target_class_id).2.countP
        (fun row => decide (argmaxIdx row = target_class_id)) = 0 := by
  have hfilter : (cleanTraining X y target_class_id).2
      = y.filter (fun row => decide (argmaxIdx row ≠ target_class_id)) :=
    boolMaskSelect_self_map _ y
  refine ⟨hfilter, ?_, ?_⟩
  · intro row hrow
    rw [hfilter] at hrow
    have hmem := (List.mem_filter.mp hrow).2
    simpa using hmem
  · rw [hfilter, List.countP_eq_zero]
    intro row hrow
    have hmem := (List.mem_filter.mp hrow).2
    simp only [decide_eq_true_eq] at hmem ⊢
    exact hmem

/-- Modelled from the spec: the external checkpoint collaborator — a store
of previously saved checkpoints addressed by path, whose restore(path)
fails fatally when the path does not correspond to a saved checkpoint. -/
def restoreCkpt {P : Type} (store : String → Option P) (path : String) :
    Except Unit P :=
  match store path with
  | some w => Except.ok w
  | none => Except.error ()

/-- Whether a restore phase succeeded. -/
def isOkE {ε α : Type} : Except ε α → Bool
  | Except.ok _ => true
  | Except.error _ => false

/-- The checkpoint-restore phase of train_gatn: only the classifier
checkpoint is restored; the ATN checkpoint path is never read, so an
absent ATN checkpoint is a valid initial condition and training proceeds
from the fresh initialization. -/
def trainGatnRestore {P : Type} (store : String → Option P)
    (checkpoint_path _atn_checkpoint_path : String) : Except Unit P :=
  restoreCkpt store checkpoint_path

/-- The checkpoint-restore phase of evaluate_gatn: the classifier
checkpoint first, then the ATN checkpoint. -/
def evaluateGatnRestore {P : Type} (store : String → Option P)
    (checkpoint_path atn_checkpoint_path : String) : Except Unit (P × P) := do
  let clf ← restoreCkpt store checkpoint_path
  let atn ← restoreCkpt store atn_checkpoint_path
  return (clf, atn)

/-- The checkpoint-restore phase of train_scores_gatn: the classifier
checkpoint first, then the ATN checkpoint. -/
def trainScoresRestore {P : Type} (store : String → Option P)
    (checkpoint_path atn_checkpoint_path : String) : Except Unit (P × P) := do
  let clf ← restoreCkpt store checkpoint_path
  let atn ← restoreCkpt store atn_checkpoint_path
  return (clf, atn)

/-- The checkpoint-restore phase of test_scores_gatn: the classifier
checkpoint first, then the ATN checkpoint. -/
def testScoresRestore {P : Type} (store : String → Option P)
    (checkpoint_path atn_checkpoint_path : String) : Except Unit (P × P) := do
  let clf ← restoreCkpt store checkpoint_path
  let atn ← restoreCkpt store atn_checkpoint_path
  return (clf, atn)

/-- C9: every entry point restores the classifier checkpoint at its start
and fails exactly when it is absent; the evaluation entry points
additionally restore the ATN checkpoint and fail when either is absent;
train_gatn does not read the ATN checkpoint, so its restore phase succeeds
whenever the classifier checkpoint exists, the ATN checkpoint being
optional at training start. -/
theorem C9_restore_protocol (P : Type) (store : String → Option P)
    (clf_path atn_path : String) :
    isOkE (trainGatnRestore store clf_path atn_path) = (store clf_path).isSome ∧
      isOkE (evaluateGatnRestore store clf_path atn_path)
        = ((store clf_path).isSome && (store atn_path).isSome) ∧
      isOkE (trainScoresRestore store clf_path atn_path)
        = ((store clf_path).isSome && (store atn_path).isSome) ∧
      isOkE (testScoresRestore store clf_path atn_path)
        = ((store clf_path).isSome && (store atn_path).isSome) := by
  refine ⟨?_, ?_, ?_, ?_⟩ <;>
    cases hc : store clf_path <;> cases ha : store atn_path <;>
      simp [trainGatnRestore, evaluateGatnRestore, trainScoresRestore,
        testScoresRestore, restoreCkpt, isOkE, hc, ha, Bind.bind, Except.bind, Pure.pure, Except.pure]

/-- One row of the sweep log: the identifying keys (dataset_id, beta) and
the five numeric result fields. -/
structure LogRecord where
  dataset_id : ℤ
  beta : ℚ
  mse : ℚ
  acc_realistic : ℚ
  acc_optimistic : ℚ
  target_rate : ℚ
  num_adversaries : ℤ
deriving DecidableEq

/-- The log record of a successful trial. -/
def successRecord (d : ℤ) (b : ℚ) (r : ℚ × ℚ × ℚ × ℚ × ℕ) : LogRecord :=
  ⟨d, b, r.1, r.2.1, r.2.2.1, r.2.2.2.1, (r.2.2.2.2 : ℤ)⟩

/-- The sentinel log record of a failed trial: -1 in every numeric field,
identifying keys kept. -/
def failureRecord (d : ℤ) (b : ℚ) : LogRecord := ⟨d, b, -1, -1, -1, -1, -1⟩

/-- The grid-search sweep over a list of (dataset, beta) trials: each
trial is attempted; a success appends its record to the SUCCESS list, a
failure appends the sentinel record to the ERRORS list and keeps the
raised exception for the console; the sweep always continues with the
remaining trials. -/
def runSweepAux {ε : Type} (trial : ℤ → ℚ → Except ε (ℚ × ℚ × ℚ × ℚ × ℕ)) :
    List (ℤ × ℚ) → List LogRecord × List LogRecord × List ε
  | [] => ([], [], [])
  | (d, b) :: rest =>
    let r := runSweepAux trial rest
    match trial d b with
    | Except.ok v => (successRecord d b v :: r.1, r.2.1, r.2.2)
    | Except.error e => (r.1, failureRecord d b :: r.2.1, e :: r.2.2)

/-- The trial grid of the sweep script: every beta for every dataset, in
loop order. -/
def sweepTrials (datasets : List ℤ) (betas : List ℚ) : List (ℤ × ℚ) :=
  datasets.flatMap (fun d => betas.map (fun b => (d, b)))

/-- The whole sweep of the grid-search script. -/
def runSweep {ε : Type} (trial : ℤ → ℚ → Except ε (ℚ × ℚ × ℚ × ℚ × ℕ))
    (datasets : List ℤ) (betas : List ℚ) :
    List LogRecord × List LogRecord × List ε :=
  runSweepAux trial (sweepTrials datasets betas)

lemma sweepTrials_length (datasets : List ℤ) (betas : List ℚ) :
    (sweepTrials datasets betas).length = datasets.length * betas.length := by
  induction datasets with
  | nil => simp [sweepTrials]
  | cons d rest ih =>
    simp only [sweepTrials, List.flatMap_cons, List.length_append, List.length_map,
      List.length_cons] at ih ⊢
    rw [ih]
    ring

lemma runSweepAux_lengths {ε : Type}
    (trial : ℤ → ℚ → Except ε (ℚ × ℚ × ℚ × ℚ × ℕ)) :
    ∀ trials : List (ℤ × ℚ),
      (runSweepAux trial trials).1.length + (runSweepAux trial trials).2.1.length
          = trials.length ∧
        (runSweepAux trial trials).2.2.length
          = (runSweepAux trial trials).2.1.length := by
  intro trials
  induction trials with
  | nil => simp [runSweepAux]
  | cons db rest ih =>
    obtain ⟨d, b⟩ := db
    simp only [runSweepAux]
    cases htr : trial d b with
    | ok v => simp only [htr, List.length_cons]; omega
    | error e => simp only [htr, List.length_cons]; omega

lemma runSweepAux_errors {ε : Type}
    (trial : ℤ → ℚ → Except ε (ℚ × ℚ × ℚ × ℚ × ℕ)) :
    ∀ (trials : List (ℤ × ℚ)) (r : LogRecord),
      r ∈ (runSweepAux trial trials).2.1 →
      r.mse = -1 ∧ r.acc_realistic = -1 ∧ r.acc_optimistic = -1 ∧
        r.target_rate = -1 ∧ r.num_adversaries = -1 ∧
        (r.dataset_id, r.beta) ∈ trials ∧
        ∃ e, trial r.dataset_id r.beta = Except.error e := by
  intro trials
  induction trials with
  | nil => intro r hr; simp [runSweepAux] at hr
  | cons db rest ih =>
    obtain ⟨d, b⟩ := db
    intro r hr
    simp only [runSweepAux] at hr
    cases htr : trial d b with
    | ok v =>
      rw [htr] at hr
      obtain ⟨h1, h2, h3, h4, h5, h6, h7⟩ := ih r hr
      exact ⟨h1, h2, h3, h4, h5, List.mem_cons_of_mem _ h6, h7⟩
    | error e =>
      rw [htr] at hr
      rcases List.mem_cons.mp hr with rfl | hr2
      · refine ⟨rfl, rfl, rfl, rfl, rfl, ?_, e, ?_⟩
        · exact List.mem_cons_self _ _
        · exact htr
      · obtain ⟨h1, h2, h3, h4, h5, h6, h7⟩ := ih r hr2
        exact ⟨h1, h2, h3, h4, h5, List.mem_cons_of_mem _ h6, h7⟩

/-- C10: in the hyperparameter sweep every failing trial is caught at the
trial boundary: successes plus failures cover the whole (dataset, beta)
grid, so the sweep never aborts; every failure record carries sentinel -1
in all numeric fields while keeping the identifying keys of a trial that
genuinely raised; and each failure surfaces exactly one exception to the
console. -/
theorem C10_sweep_failures (ε : Type)
    (trial : ℤ → ℚ → Except ε (ℚ × ℚ × ℚ × ℚ × ℕ))
    (datasets : List ℤ) (betas : List ℚ) :
    (runSweep trial datasets betas).1.length
          + (runSweep trial datasets betas).2.1.length
        = datasets.length * betas.length ∧
      (∀ r ∈ (runSweep trial datasets betas).2.1,
        r.mse = -1 ∧ r.acc_realistic = -1 ∧ r.acc_optimistic = -1 ∧
          r.target_rate = -1 ∧ r.num_adversaries = -1 ∧
          (r.dataset_id, r.beta) ∈ sweepTrials datasets betas ∧
          ∃ e, trial r.dataset_id r.beta = Except.error e) ∧
      (runSweep trial datasets betas).2.2.length
        = (runSweep trial datasets betas).2.1.length := by
  have hlen := runSweepAux_lengths trial (sweepTrials datasets betas)
  refine ⟨?_, ?_, hlen.2⟩
  · rw [← sweepTrials_length datasets betas]
    exact hlen.1
  · intro r hr
    exact runSweepAux_errors trial (sweepTrials datasets betas) r hr

/-- Witness for C10: the sweep with a trial function that always raises
produces, for the grid with a single (21, 0) trial, the sentinel record
with -1 in every numeric field. -/
theorem C10_sweep_failures_witness :
    (failureRecord 21 0).mse = -1 ∧ (failureRecord 21 0).acc_realistic = -1 ∧
      (failureRecord 21 0).acc_optimistic = -1 ∧
      (failureRecord 21 0).target_rate = -1 ∧
      (failureRecord 21 0).num_adversaries = -1 ∧
      ((failureRecord 21 0).dataset_id, (failureRecord 21 0).beta)
        ∈ sweepTrials [21] [0] ∧
      ∃ e, (fun (_ : ℤ) (_ : ℚ) =>
          (Except.error "boom" : Except String (ℚ × ℚ × ℚ × ℚ × ℕ)))
        (failureRecord 21 0).dataset_id (failureRecord 21 0).beta
          = Except.error e :=
  (C10_sweep_failures String (fun _ _ => Except.error "boom") [21] [0]).2.1
    (failureRecord 21 0) (List.mem_singleton.mpr rfl)

end GATN
